import Mathlib

/-
Verification of the pyRSD rsdfit optimization core against its source.

Shallow embedding of:
  src/pyRSD/rsdfit/solvers/lbfgs_solver.py  (the L-BFGS optimization driver)
  src/pyRSD/rsdfit/theory/base.py           (parameter set operations and the
                                             transfer pipeline)

Numeric values are modelled as rationals.  External collaborators that are
not part of the two source files (the Parameter class of the parameters
module, the lbfgs module, the scipy spline, the decorators module, the
model object) are modelled as explicit function arguments or record fields,
so every theorem quantifies over their behavior.  Python exceptions are
modelled with Except; the distinct Python exception classes that the source
can raise are the constructors of PyErr.
-/

namespace PyrsdFit

/-- Python exception kinds that the embedded code can raise. -/
inductive PyErr where
  | valueError (msg : String)
  | indexError
  | keyError
  | assertionError
  | nameError (missing : String)
  | attributeError
  | typeError
  deriving DecidableEq, Repr

/-
A single Parameter object, as used by the solver and by
BasePowerParameters.set_free_parameters.  The Parameter class itself lives
in the parameters module (outside the two source files); the code under
verification only reads p.value, writes p.value and calls p.within_bounds,
so a Parameter is modelled by those three components.  The predicate
within_bounds is the one-argument form p.within_bounds(x); the Python
zero-argument call p.within_bounds() tests the stored value and is written
p.within_bounds p.value here.
-/
structure Param where
  name : String
  value : ℚ
  within_bounds : ℚ → Bool

/-
Model of the Python statements
    for i, value in enumerate(p0): params[i].value = value
applied to a list of Parameter objects: positions beyond the length of p0
keep their old value.
-/
def setParamValues : List Param → List ℚ → List Param
  | ps, [] => ps
  | [], _ :: _ => []
  | p :: ps, v :: vs => { p with value := v } :: setParamValues ps vs

/-
InitializeFromPrior (lbfgs_solver.py lines 12-24).  The successive random
draws (one vector per loop iteration, built from p.get_value_from_prior for
each parameter) are supplied as the list draws; an empty remainder models
running out of modelling fuel, never reached by the Python loop, which
spins forever instead.  The parameter objects are mutated on every
iteration, accepted or not, so the evolving list is threaded through and
returned together with the accepted vector.
-/
def InitializeFromPrior (params : List Param) : List (List ℚ) → Option (List ℚ × List Param)
  | [] => none
  | p0 :: rest =>
    let ps := setParamValues params p0
    if ps.all (fun p => p.within_bounds p.value) then some (p0, ps)
    else InitializeFromPrior ps rest

/-
InitializeWithScatter (lbfgs_solver.py lines 27-41).  The Python body draws
noise = np.random.normal(scale=scatter*x) each iteration and proposes
p0 = x + noise; the noise vectors are supplied as the list noises.  The
scatter argument only shapes the distribution the noise is drawn from, so
it does not appear in the control flow below.
-/
def InitializeWithScatter (params : List Param) (x : List ℚ) (scatter : ℚ) :
    List (List ℚ) → Option (List ℚ × List Param)
  | [] => none
  | noise :: rest =>
    let p0 := List.zipWith (fun a b => a + b) x noise
    let ps := setParamValues params p0
    if ps.all (fun p => p.within_bounds p.value) then some (p0, ps)
    else InitializeWithScatter ps x scatter rest

/-
BasePowerParameters.scale and inverse_scale (base.py lines 346-358).
The Python bodies are elementwise numpy expressions
    (theta - self.locs) / self.scales      and      theta * self.scales + self.locs
where self.locs and self.scales are vectors owned by the parameter set
(derived in the parameters module from each free parameter prior, or a
fixed default when no prior is attached); they are passed explicitly here.
-/
def scale (locs scales θ : List ℚ) : List ℚ :=
  List.zipWith (fun a s => a / s) (List.zipWith (fun a b => a - b) θ locs) scales

def inverse_scale (locs scales θ : List ℚ) : List ℚ :=
  List.zipWith (fun a b => a + b) (List.zipWith (fun a s => a * s) θ scales) locs

/-
Basic facts about setParamValues: it preserves the length of the parameter
list and the within_bounds predicate of each position, and it stores the
supplied values positionally.
-/
theorem setParamValues_length (ps : List Param) (vs : List ℚ) :
    (setParamValues ps vs).length = ps.length := by
  induction ps generalizing vs with
  | nil => cases vs <;> rfl
  | cons p ps ih =>
    cases vs with
    | nil => rfl
    | cons v vs => simp [setParamValues, ih]

theorem setParamValues_within_bounds (ps : List Param) (vs : List ℚ)
    (i : ℕ) (h1 : i < (setParamValues ps vs).length) (h2 : i < ps.length) :
    ((setParamValues ps vs).get ⟨i, h1⟩).within_bounds =
      (ps.get ⟨i, h2⟩).within_bounds := by
  induction ps generalizing vs i with
  | nil => exact absurd h2 (by simp)
  | cons p ps ih =>
    cases vs with
    | nil => rfl
    | cons v vs =>
      cases i with
      | zero => rfl
      | succ j =>
        exact ih vs j (by simpa [setParamValues] using h1) (by simpa using h2)

theorem setParamValues_value (ps : List Param) (vs : List ℚ)
    (i : ℕ) (h1 : i < (setParamValues ps vs).length) (h2 : i < vs.length) :
    ((setParamValues ps vs).get ⟨i, h1⟩).value = vs.get ⟨i, h2⟩ := by
  induction ps generalizing vs i with
  | nil =>
    cases vs with
    | nil => exact absurd h2 (by simp)
    | cons v vs => exact absurd h1 (by simp [setParamValues])
  | cons p ps ih =>
    cases vs with
    | nil => exact absurd h2 (by simp)
    | cons v vs =>
      cases i with
      | zero => rfl
      | succ j =>
        exact ih vs j (by simpa [setParamValues] using h1) (by simpa using h2)

/-
The rejection-sampling loops only return vectors whose components pass
their within_bounds check: whenever InitializeFromPrior answers, each
component of the answered vector satisfies the corresponding (original)
within_bounds predicate, because the loop breaks only when every parameter
object, freshly assigned from the vector, reports itself within bounds.
-/
theorem InitializeFromPrior_within_bounds (ds : List (List ℚ)) (params : List Param)
    (p0 : List ℚ) (out : List Param)
    (h : InitializeFromPrior params ds = some (p0, out)) :
    ∀ i (hi : i < params.length) (hp : i < p0.length),
      (params.get ⟨i, hi⟩).within_bounds (p0.get ⟨i, hp⟩) = true := by
  induction ds generalizing params with
  | nil => exact absurd h (by simp [InitializeFromPrior])
  | cons d rest ih =>
    rw [InitializeFromPrior] at h
    split at h
    · next hall =>
      simp only [Option.some.injEq, Prod.mk.injEq] at h
      obtain ⟨hd, hout⟩ := h
      subst hd
      intro i hi hp
      have hi2 : i < (setParamValues params d).length := by
        rw [setParamValues_length]; exact hi
      have hv := setParamValues_value params d i hi2 hp
      have hwb := setParamValues_within_bounds params d i hi2 hi
      have hmem := List.get_mem (setParamValues params d) i hi2
      have hall2 := List.all_eq_true.mp hall _ hmem
      rw [hv, hwb] at hall2
      exact hall2
    · intro i hi hp
      have hi2 : i < (setParamValues params d).length := by
        rw [setParamValues_length]; exact hi
      have h2 := ih (setParamValues params d) h i hi2 hp
      rw [setParamValues_within_bounds params d i hi2 hi] at h2
      exact h2

/-- The same acceptance guarantee for InitializeWithScatter. -/
theorem InitializeWithScatter_within_bounds (ns : List (List ℚ)) (params : List Param)
    (x : List ℚ) (s : ℚ) (p0 : List ℚ) (out : List Param)
    (h : InitializeWithScatter params x s ns = some (p0, out)) :
    ∀ i (hi : i < params.length) (hp : i < p0.length),
      (params.get ⟨i, hi⟩).within_bounds (p0.get ⟨i, hp⟩) = true := by
  induction ns generalizing params with
  | nil => exact absurd h (by simp [InitializeWithScatter])
  | cons noise rest ih =>
    rw [InitializeWithScatter] at h
    split at h
    · next hall =>
      simp only [Option.some.injEq, Prod.mk.injEq] at h
      obtain ⟨hd, hout⟩ := h
      subst hd
      intro i hi hp
      have hi2 : i < (setParamValues params (List.zipWith (fun a b => a + b) x noise)).length := by
        rw [setParamValues_length]; exact hi
      have hv := setParamValues_value params (List.zipWith (fun a b => a + b) x noise) i hi2 hp
      have hwb := setParamValues_within_bounds params (List.zipWith (fun a b => a + b) x noise) i hi2 hi
      have hmem := List.get_mem (setParamValues params (List.zipWith (fun a b => a + b) x noise)) i hi2
      have hall2 := List.all_eq_true.mp hall _ hmem
      rw [hv, hwb] at hall2
      exact hall2
    · intro i hi hp
      have hi2 : i < (setParamValues params (List.zipWith (fun a b => a + b) x noise)).length := by
        rw [setParamValues_length]; exact hi
      have h2 := ih (setParamValues params (List.zipWith (fun a b => a + b) x noise)) h i hi2 hp
      rw [setParamValues_within_bounds params (List.zipWith (fun a b => a + b) x noise) i hi2 hi] at h2
      exact h2

/-- A returned scatter vector is never longer than the reference vector x. -/
theorem InitializeWithScatter_length (ns : List (List ℚ)) (params : List Param)
    (x : List ℚ) (s : ℚ) (p0 : List ℚ) (out : List Param)
    (h : InitializeWithScatter params x s ns = some (p0, out)) :
    p0.length ≤ x.length := by
  induction ns generalizing params with
  | nil => exact absurd h (by simp [InitializeWithScatter])
  | cons noise rest ih =>
    rw [InitializeWithScatter] at h
    split at h
    · simp only [Option.some.injEq, Prod.mk.injEq] at h
      obtain ⟨hd, _⟩ := h
      rw [← hd]
      simp [List.length_zipWith]

    · exact ih _ h

/-- The scenario parameter of the spec: bounds zero to one, fiducial one half. -/
def unitParam : Param :=
  { name := "p", value := 1/2, within_bounds := fun q => decide (0 ≤ q ∧ q ≤ 1) }

/-
The spec scenario: every parameter has bounds zero to one and fiducial one
half; any vector returned by InitializeWithScatter has all components in
the unit interval.
-/
theorem scatter_unit_interval (n : ℕ) (noises : List (List ℚ))
    (p0 : List ℚ) (out : List Param)
    (h : InitializeWithScatter (List.replicate n unitParam)
          (List.replicate n ((1:ℚ)/2)) (1/10) noises = some (p0, out)) :
    ∀ q ∈ p0, 0 ≤ q ∧ q ≤ 1 := by
  intro q hq
  obtain ⟨⟨i, hp⟩, rfl⟩ := List.mem_iff_get.mp hq
  have hlen := InitializeWithScatter_length noises _ _ _ _ _ h
  have hi : i < (List.replicate n unitParam).length := by
    simp only [List.length_replicate]
    have h2 : p0.length ≤ n := by simpa using hlen
    omega
  have hwb := InitializeWithScatter_within_bounds noises _ _ _ _ _ h i hi hp
  simp only [List.get_eq_getElem, List.getElem_replicate] at hwb
  simp only [unitParam] at hwb
  exact of_decide_eq_true hwb

/-- Claim C5: whenever InitializeFromPrior or InitializeWithScatter returns,
every component of the returned vector satisfies the within_bounds check of
the corresponding parameter (the rejection-sampling loop re-draws for as
long as any parameter is out of bounds); and for a parameter set with
bounds zero to one, scatter one tenth and fiducial one half, every vector
returned by InitializeWithScatter has all components in the unit
interval. -/
theorem C5_initializers_within_bounds :
    (∀ (params : List Param) (ds : List (List ℚ)) (p0 : List ℚ) (out : List Param),
       InitializeFromPrior params ds = some (p0, out) →
       ∀ i (hi : i < params.length) (hp : i < p0.length),
         (params.get ⟨i, hi⟩).within_bounds (p0.get ⟨i, hp⟩) = true)
  ∧ (∀ (params : List Param) (x : List ℚ) (s : ℚ) (ns : List (List ℚ))
       (p0 : List ℚ) (out : List Param),
       InitializeWithScatter params x s ns = some (p0, out) →
       ∀ i (hi : i < params.length) (hp : i < p0.length),
         (params.get ⟨i, hi⟩).within_bounds (p0.get ⟨i, hp⟩) = true)
  ∧ (∀ (n : ℕ) (noises : List (List ℚ)) (p0 : List ℚ) (out : List Param),
       InitializeWithScatter (List.replicate n unitParam)
         (List.replicate n ((1:ℚ)/2)) (1/10) noises = some (p0, out) →
       ∀ q ∈ p0, 0 ≤ q ∧ q ≤ 1) :=
  ⟨fun _ ds _ _ h => InitializeFromPrior_within_bounds ds _ _ _ h,
   fun _ _ _ ns _ _ h => InitializeWithScatter_within_bounds ns _ _ _ _ _ h,
   fun n noises _ _ h => scatter_unit_interval n noises _ _ h⟩

/-- Witness for claim C5: a concrete scatter run whose first draw lands out
of bounds and whose second draw is accepted; the accepted component lies in
the unit interval. -/
theorem C5_witness : (0:ℚ) ≤ 3/5 ∧ (3/5:ℚ) ≤ 1 :=
  C5_initializers_within_bounds.2.2 1 [[2], [1/10]] [3/5]
    [{ name := "p", value := 3/5, within_bounds := fun q => decide (0 ≤ q ∧ q ≤ 1) }]
    (by norm_num [InitializeWithScatter, setParamValues, unitParam, List.replicate])
    (3/5) (by simp)

/-- Claim C4: inverse_scale inverts scale exactly: for vectors of matching
lengths and nonzero scales, applying scale then inverse_scale returns the
original free-parameter vector (exactly, over the rationals). -/
theorem C4_scale_roundtrip (locs scales θ : List ℚ)
    (hl : locs.length = θ.length) (hs : scales.length = θ.length)
    (hnz : ∀ s ∈ scales, s ≠ 0) :
    inverse_scale locs scales (scale locs scales θ) = θ := by
  induction θ generalizing locs scales with
  | nil =>
    have h1 : locs = [] := List.length_eq_zero.mp hl
    have h2 : scales = [] := List.length_eq_zero.mp hs
    subst h1; subst h2; rfl
  | cons a t ih =>
    cases locs with
    | nil => exact absurd hl (by simp)
    | cons l ls =>
      cases scales with
      | nil => exact absurd hs (by simp)
      | cons s ss =>
        have hs0 : s ≠ 0 := hnz s (List.mem_cons_self s ss)
        have hd : (a - l) / s * s + l = a := by
          rw [div_mul_cancel₀ _ hs0]; ring
        have ht := ih ls ss (by simpa using hl) (by simpa using hs)
          (fun u hu => hnz u (List.mem_cons_of_mem s hu))
        simp only [scale, inverse_scale, List.zipWith_cons_cons] at ht ⊢
        rw [hd, ht]

/-- Witness for claim C4: a concrete round trip. -/
theorem C4_witness :
    inverse_scale [1, 2] [3, 4] (scale [1, 2] [3, 4] [5, 6]) = [5, 6] :=
  C4_scale_roundtrip [1, 2] [3, 4] [5, 6] rfl rfl (by decide)

/-
State of a BasePowerParameters object as far as set_free_parameters
observes it: the ordered free parameters and the parameter values held by
the attached model object.
-/
structure BPParams where
  free : List Param
  model : List (String × ℚ)

/-
The two RuntimeError branches of set_free_parameters, kept distinct (and
distinct from the boolean bounds rejection): the first wraps a failure of
self.update_values, the second a failure of self.model.update.
-/
inductive SetFreeErr where
  | paramUpdateFailure (msg : String)
  | modelUpdateFailure (msg : String)
  deriving DecidableEq, Repr

/-
BasePowerParameters.set_free_parameters (base.py lines 269-308).
update_values (ParameterSet.update_values, parameters module) and
model_update (the model object update, physics model) are external
collaborators passed as functions; an error value models the Python call
raising.  The source first checks p.within_bounds(theta[i]) for every free
parameter and returns False without mutating anything when any check
fails; only then does it call update_values with dict(zip(free_names,
theta)) and then model.update, wrapping an exception of either call in a
RuntimeError whose message identifies which of the two calls failed.
-/
def set_free_parameters
    (update_values : BPParams → List (String × ℚ) → Except String BPParams)
    (model_update : BPParams → Except String BPParams)
    (ps : BPParams) (θ : List ℚ) : Except SetFreeErr (Bool × BPParams) :=
  if (ps.free.zip θ).all (fun pv => pv.1.within_bounds pv.2) then
    match update_values ps ((ps.free.map Param.name).zip θ) with
    | .error e =>
      .error (.paramUpdateFailure
        (String.append "exception while trying to update free parameters: " e))
    | .ok ps1 =>
      match model_update ps1 with
      | .error e =>
        .error (.modelUpdateFailure
          (String.append "exception while trying to update the theoretical model: " e))
      | .ok ps2 => .ok (true, ps2)
  else .ok (false, ps)

/-- Pointwise reading of List.all over a zip of equal-length lists. -/
theorem zip_all_iff {α β : Type} (f : α × β → Bool) :
    ∀ (xs : List α) (ys : List β),
      ((xs.zip ys).all f = true ↔
        ∀ i (h1 : i < xs.length) (h2 : i < ys.length),
          f (xs.get ⟨i, h1⟩, ys.get ⟨i, h2⟩) = true) := by
  intro xs
  induction xs with
  | nil =>
    intro ys
    constructor
    · intro _ i h1 _
      exact absurd h1 (by simp)
    · intro _
      rfl
  | cons x xs ih =>
    intro ys
    cases ys with
    | nil =>
      constructor
      · intro _ i _ h2
        exact absurd h2 (by simp)
      · intro _
        rfl
    | cons y ys =>
      simp only [List.zip_cons_cons, List.all_cons, Bool.and_eq_true]
      constructor
      · rintro ⟨hf, hrest⟩ i h1 h2
        cases i with
        | zero => exact hf
        | succ j => exact (ih ys).mp hrest j (by simpa using h1) (by simpa using h2)
      · intro hall
        refine ⟨hall 0 (by simp) (by simp), (ih ys).mpr ?_⟩
        intro j h1 h2
        exact hall (j+1) (by simpa using h1) (by simpa using h2)

/-- Claim C3: with a trial vector having some component outside the bounds
of its free parameter, set_free_parameters returns False and mutates
nothing; with every component within bounds it applies the vector through
update_values, pushes the result into the model through model_update, and
turns a failure of either call into a descriptive error distinct from a
bounds rejection (paramUpdateFailure or modelUpdateFailure), returning True
with the model-updated state on success. -/
theorem C3_set_free_parameters
    (update_values : BPParams → List (String × ℚ) → Except String BPParams)
    (model_update : BPParams → Except String BPParams)
    (ps : BPParams) (θ : List ℚ) :
    ((∃ i, ∃ (h1 : i < ps.free.length) (h2 : i < θ.length),
        (ps.free.get ⟨i, h1⟩).within_bounds (θ.get ⟨i, h2⟩) = false) →
      set_free_parameters update_values model_update ps θ = .ok (false, ps))
  ∧ ((∀ i (h1 : i < ps.free.length) (h2 : i < θ.length),
        (ps.free.get ⟨i, h1⟩).within_bounds (θ.get ⟨i, h2⟩) = true) →
      ((∀ e, update_values ps ((ps.free.map Param.name).zip θ) = .error e →
          set_free_parameters update_values model_update ps θ =
            .error (.paramUpdateFailure
              (String.append "exception while trying to update free parameters: " e)))
       ∧ (∀ ps1 e, update_values ps ((ps.free.map Param.name).zip θ) = .ok ps1 →
            model_update ps1 = .error e →
            set_free_parameters update_values model_update ps θ =
              .error (.modelUpdateFailure
                (String.append "exception while trying to update the theoretical model: " e)))
       ∧ (∀ ps1 ps2, update_values ps ((ps.free.map Param.name).zip θ) = .ok ps1 →
            model_update ps1 = .ok ps2 →
            set_free_parameters update_values model_update ps θ = .ok (true, ps2)))) := by
  constructor
  · rintro ⟨i, h1, h2, hfail⟩
    have hcond : ((ps.free.zip θ).all (fun pv => pv.1.within_bounds pv.2)) = false := by
      rcases hc : (ps.free.zip θ).all (fun pv => pv.1.within_bounds pv.2) with _ | _
      · rfl
      · have := (zip_all_iff (fun pv => pv.1.within_bounds pv.2) ps.free θ).mp hc i h1 h2
        rw [this] at hfail
        exact absurd hfail (by simp)
    simp [set_free_parameters, hcond]
  · intro hall
    have hcond : ((ps.free.zip θ).all (fun pv => pv.1.within_bounds pv.2)) = true :=
      (zip_all_iff (fun pv => pv.1.within_bounds pv.2) ps.free θ).mpr hall
    refine ⟨?_, ?_, ?_⟩
    · intro e he
      simp [set_free_parameters, hcond, he]
    · intro ps1 e huv hmu
      simp [set_free_parameters, hcond, huv, hmu]
    · intro ps1 ps2 huv hmu
      simp [set_free_parameters, hcond, huv, hmu]

/-- A concrete update_values collaborator for the witness: stores the given
values in the free parameter objects. -/
def uvW : BPParams → List (String × ℚ) → Except String BPParams :=
  fun ps kvs => .ok { ps with free := setParamValues ps.free (kvs.map Prod.snd) }

/-- A concrete model_update collaborator for the witness: copies the free
parameter values into the model mapping. -/
def muW : BPParams → Except String BPParams :=
  fun ps => .ok { ps with model := ps.free.map (fun p => (p.name, p.value)) }

/-- A concrete one-parameter set for the witness. -/
def psW : BPParams :=
  { free := [{ name := "b1", value := 1, within_bounds := fun q => decide (0 ≤ q) }],
    model := [] }

/-- Witness for claim C3: a successful in-bounds update returning True with
the value pushed into the model. -/
theorem C3_witness :
    set_free_parameters uvW muW psW [2] =
      .ok (true,
        { free := [{ name := "b1", value := 2, within_bounds := fun q => decide (0 ≤ q) }],
          model := [("b1", 2)] }) := by
  refine ((C3_set_free_parameters uvW muW psW [2]).2 ?_).2.2
    { free := [{ name := "b1", value := 2, within_bounds := fun q => decide (0 ≤ q) }],
      model := [] }
    { free := [{ name := "b1", value := 2, within_bounds := fun q => decide (0 ≤ q) }],
      model := [("b1", 2)] }
    (by norm_num [uvW, psW, setParamValues]) (by norm_num [muW])
  intro i h1 h2
  have hi : i = 0 := by
    simp only [List.length_singleton] at h2
    omega
  subst hi
  norm_num [psW]

/-
State of a BasePowerTheory object as far as the preserve context manager
observes it: the name-to-value mapping held by fit_params, plus the list
of free parameter names (free_names) in order.
-/
structure TheoryState where
  params : List (String × ℚ)
  freeNames : List String

/-- Read the value of a named parameter from the mapping. -/
def getValue (ps : List (String × ℚ)) (n : String) : Option ℚ :=
  (ps.find? (fun kv => kv.1 == n)).map Prod.snd

/-- Assign a named parameter in the mapping (no effect when absent). -/
def setValue (ps : List (String × ℚ)) (n : String) (v : ℚ) : List (String × ℚ) :=
  ps.map (fun kv => if kv.1 == n then (n, v) else kv)

/-- Assign a sequence of named parameters left to right. -/
def setMany (ps : List (String × ℚ)) : List (String × ℚ) → List (String × ℚ)
  | [] => ps
  | kv :: rest => setMany (setValue ps kv.1 kv.2) rest

/-- The free_values property: the values of the free parameters, in
free_names order. -/
def freeValues (s : TheoryState) : List ℚ :=
  s.freeNames.map (fun n => (getValue s.params n).getD 0)

/-
The entry loop of preserve (base.py lines 445-446):
    for i, name in enumerate(self.free_names): self.fit_params[name].value = theta[i]
-/
def setFreeByIndex (s : TheoryState) (θ : List ℚ) : TheoryState :=
  { s with params := setMany s.params (s.freeNames.zip θ) }

/-- Modelled from the spec: ParameterSet.update_values lives in the
parameters module, which is not under src; the spec data model describes
the ParameterSet as an ordered mapping with update-by-name, so the call is
modelled as assigning each named parameter the given value. -/
def update_values (s : TheoryState) (kvs : List (String × ℚ)) : TheoryState :=
  { s with params := setMany s.params kvs }

/-
BasePowerTheory.preserve (base.py lines 435-452), a contextlib context
manager.  The managed block is the function body; an exception raised by
the block is modelled as an error carrying the state at raise time.  The
generator saves free_values, assigns theta positionally to the free
parameters, yields, and after a normal resumption restores via
update_values(**dict(zip(self.free_names, original_state))).  When the
block raises, the code after the yield never runs, so no restoration
happens and the error propagates unchanged.
-/
def preserve (θ : List ℚ) (body : TheoryState → Except (PyErr × TheoryState) TheoryState)
    (s : TheoryState) : Except (PyErr × TheoryState) TheoryState :=
  let original_state := freeValues s
  let s1 := setFreeByIndex s θ
  match body s1 with
  | .ok s2 => .ok (update_values s2 (s2.freeNames.zip original_state))
  | .error es => .error es

theorem getValue_setValue_self (ps : List (String × ℚ)) (n : String) (v : ℚ) :
    getValue (setValue ps n v) n = (getValue ps n).map (fun _ => v) := by
  induction ps with
  | nil => rfl
  | cons kv ps ih =>
    simp only [getValue, setValue, List.map_cons] at ih ⊢
    by_cases h : kv.1 = n
    · rw [if_pos (by simpa using h)]
      rw [List.find?_cons_of_pos _ (by simp), List.find?_cons_of_pos _ (by simp [h])]
      rfl
    · rw [if_neg (by simpa using h)]
      rw [List.find?_cons_of_neg _ (by simp [h]), List.find?_cons_of_neg _ (by simp [h])]
      exact ih

theorem getValue_setValue_ne (ps : List (String × ℚ)) (m n : String) (v : ℚ)
    (hmn : m ≠ n) :
    getValue (setValue ps n v) m = getValue ps m := by
  induction ps with
  | nil => rfl
  | cons kv ps ih =>
    simp only [getValue, setValue, List.map_cons] at ih ⊢
    by_cases h : kv.1 = n
    · rw [if_pos (by simpa using h)]
      rw [List.find?_cons_of_neg _ (by simp only [beq_iff_eq]; exact Ne.symm hmn)]
      rw [List.find?_cons_of_neg _ (by simp only [beq_iff_eq, h]; exact Ne.symm hmn)]
      exact ih
    · rw [if_neg (by simpa using h)]
      by_cases h2 : kv.1 = m
      · rw [List.find?_cons_of_pos _ (by simp [h2]), List.find?_cons_of_pos _ (by simp [h2])]
      · rw [List.find?_cons_of_neg _ (by simp [h2]), List.find?_cons_of_neg _ (by simp [h2])]
        exact ih

theorem getValue_setValue_isSome (ps : List (String × ℚ)) (m n : String) (v : ℚ) :
    (getValue (setValue ps n v) m).isSome = (getValue ps m).isSome := by
  by_cases h : m = n
  · subst h
    rw [getValue_setValue_self]
    cases getValue ps m <;> rfl
  · rw [getValue_setValue_ne ps m n v h]

theorem getValue_setMany_isSome (kvs : List (String × ℚ)) (ps : List (String × ℚ))
    (m : String) :
    (getValue (setMany ps kvs) m).isSome = (getValue ps m).isSome := by
  induction kvs generalizing ps with
  | nil => rfl
  | cons kv rest ih =>
    rw [setMany, ih, getValue_setValue_isSome]

theorem getValue_setMany_not_mem (kvs : List (String × ℚ)) (ps : List (String × ℚ))
    (m : String) (h : m ∉ kvs.map Prod.fst) :
    getValue (setMany ps kvs) m = getValue ps m := by
  induction kvs generalizing ps with
  | nil => rfl
  | cons kv rest ih =>
    simp only [List.map_cons, List.mem_cons, not_or] at h
    rw [setMany, ih _ h.2, getValue_setValue_ne ps m kv.1 kv.2 h.1]

theorem getValue_setMany_mem (kvs : List (String × ℚ)) (ps : List (String × ℚ))
    (n : String) (v : ℚ) (hnd : (kvs.map Prod.fst).Nodup) (hmem : (n, v) ∈ kvs)
    (hsome : (getValue ps n).isSome = true) :
    getValue (setMany ps kvs) n = some v := by
  induction kvs generalizing ps with
  | nil => exact absurd hmem (by simp)
  | cons kv rest ih =>
    simp only [List.map_cons, List.nodup_cons] at hnd
    rw [setMany]
    rcases List.mem_cons.mp hmem with heq | hrest
    · have hn : kv.1 = n := by rw [← heq]
      have hv : kv.2 = v := by rw [← heq]
      have hnotin : n ∉ List.map Prod.fst rest := by rw [← hn]; exact hnd.1
      rw [getValue_setMany_not_mem rest _ n hnotin, hn, hv, getValue_setValue_self]
      obtain ⟨w, hw⟩ := Option.isSome_iff_exists.mp hsome
      rw [hw]
      rfl
    · exact ih (setValue ps kv.1 kv.2) hnd.2 hrest
        (by rw [getValue_setValue_isSome]; exact hsome)

/-- Core restoration fact: assigning names.zip vs and reading back in
names order returns vs, for distinct names all present in the mapping. -/
theorem map_getValue_setMany_zip (names : List String) (vs : List ℚ)
    (ps : List (String × ℚ)) (hnd : names.Nodup)
    (hpres : ∀ n ∈ names, (getValue ps n).isSome = true)
    (hlen : vs.length = names.length) :
    names.map (fun n => (getValue (setMany ps (names.zip vs)) n).getD 0) = vs := by
  apply List.ext_get
  · simp [hlen]
  · intro i h1 h2
    simp only [List.get_eq_getElem, List.getElem_map]
    have hi : i < names.length := by simpa using h1
    have hmem : (names.get ⟨i, hi⟩, vs.get ⟨i, h2⟩) ∈ names.zip vs := by
      have := @List.get_zip _ _ names vs ⟨i, by simp [List.length_zip]; omega⟩
      rw [← this]
      exact List.get_mem _ _ _
    have hkeys : (names.zip vs).map Prod.fst = names :=
      List.map_fst_zip names vs (by omega)
    have hnd2 : ((names.zip vs).map Prod.fst).Nodup := by rw [hkeys]; exact hnd
    have := getValue_setMany_mem (names.zip vs) ps (names.get ⟨i, hi⟩) (vs.get ⟨i, h2⟩)
      hnd2 hmem (hpres _ (List.get_mem _ _ _))
    simp only [List.get_eq_getElem] at this
    rw [this]
    simp

/-- Claim C10: on entry, preserve assigns the components of theta to the
free parameters; on normal completion of the managed block it restores the
free-parameter values from before entry; if the block raises, the
restoration does not happen: the exception propagates with the state
exactly as the block left it, and in particular when the block left the
parameters untouched they remain at theta. -/
theorem C10_preserve (s : TheoryState) (θ : List ℚ)
    (body : TheoryState → Except (PyErr × TheoryState) TheoryState)
    (hnd : s.freeNames.Nodup)
    (hpres : ∀ n ∈ s.freeNames, (getValue s.params n).isSome = true)
    (hlen : θ.length = s.freeNames.length) :
    (freeValues (setFreeByIndex s θ) = θ)
  ∧ (∀ s2, body (setFreeByIndex s θ) = .ok s2 →
       s2.freeNames = s.freeNames →
       (∀ n ∈ s.freeNames, (getValue s2.params n).isSome = true) →
       preserve θ body s = .ok (update_values s2 (s2.freeNames.zip (freeValues s)))
       ∧ freeValues (update_values s2 (s2.freeNames.zip (freeValues s))) = freeValues s)
  ∧ (∀ e s2, body (setFreeByIndex s θ) = .error (e, s2) →
       preserve θ body s = .error (e, s2)
       ∧ (s2 = setFreeByIndex s θ → freeValues s2 = θ)) := by
  have hentry : freeValues (setFreeByIndex s θ) = θ := by
    simp only [freeValues, setFreeByIndex]
    exact map_getValue_setMany_zip s.freeNames θ s.params hnd hpres hlen
  refine ⟨hentry, ?_, ?_⟩
  · intro s2 hbody hfn hpres2
    constructor
    · simp only [preserve, hbody]
    · have hlen2 : (freeValues s).length = s.freeNames.length := by
        simp [freeValues]
      have hmain := map_getValue_setMany_zip s.freeNames (freeValues s) s2.params
        hnd hpres2 hlen2
      have hshape : freeValues (update_values s2 (s2.freeNames.zip (freeValues s))) =
          s.freeNames.map
            (fun n => (getValue (setMany s2.params (s.freeNames.zip (freeValues s))) n).getD 0) := by
        simp [freeValues, update_values, hfn]
      rw [hshape, hmain]
  · intro e s2 hbody
    constructor
    · simp only [preserve, hbody]
    · intro hop
      rw [hop]
      exact hentry

/-- A concrete theory state for the C10 witness. -/
def thW : TheoryState := { params := [("a", 5)], freeNames := ["a"] }

/-- Witness for claim C10: with a managed block that completes normally
without touching the parameters, preserve restores the saved free
values. -/
theorem C10_witness :
    preserve [7] (fun t => .ok t) thW =
      .ok (update_values (setFreeByIndex thW [7])
            ((setFreeByIndex thW [7]).freeNames.zip (freeValues thW)))
    ∧ freeValues (update_values (setFreeByIndex thW [7])
        ((setFreeByIndex thW [7]).freeNames.zip (freeValues thW))) = freeValues thW :=
  (C10_preserve thW [7] (fun t => .ok t) (by decide) (by decide) (by decide)).2.1
    (setFreeByIndex thW [7]) rfl rfl (by decide)

/-
Transfer pipeline data model (base.py lines 661-805).

A transfer object (external collaborator, pyRSD.rsd.transfers) owns the
flattened coordinate arrays flatk and flatmu it needs evaluated, and is
callable on its slice of the raw prediction vector, producing an
xarray.DataArray indexed by the native coordinate k and a secondary basis
dimension (ell or mu).  That DataArray is modelled as a TResult: the
native k coordinate plus, per value of the secondary dimension, the data
values paired with a validity flag (false models a NaN entry, the ones
r.notnull() drops for gridded transfers).  The isinstance tests of the
source on the transfer class are modelled by the kind tag.
-/
inductive TransferKind where
  | window
  | gridded
  | plain
  deriving DecidableEq, Repr

structure TResult where
  k : List ℚ
  bins : List (ℚ × List (ℚ × Bool))

structure Transfer where
  flatk : List ℚ
  flatmu : List ℚ
  kind : TransferKind
  apply : List ℚ → TResult

/-- One measurement of the data object; apply_transfers only reads its k
coordinates (m.k). -/
structure Meas where
  k : List ℚ

/-- The PowerData object as read by apply_transfers: the basis mode, the
ordered statistic names, and the measurement list indexed in parallel. -/
structure PowerData where
  mode : String
  statistics : List String
  measurements : List Meas

/-- A stat_ids value: either one bin identifier or a list of them (the
source wraps a non-list value into a singleton list). -/
inductive BinVal where
  | single (b : ℚ)
  | multi (bs : List ℚ)

def BinVal.toList : BinVal → List ℚ
  | .single b => [b]
  | .multi bs => bs

/-- A Python value produced by a theory decorator: a numpy array or
anything else (the isinstance np.ndarray test of line 799 distinguishes
exactly these two cases). -/
inductive PyVal where
  | arr (xs : List ℚ)
  | nonArray

/-- The dim variable of apply_transfers (line 745): the name of the
secondary basis dimension. -/
def basis_dim (data : PowerData) : String :=
  if data.mode = "poles" then "ell" else "mu"

/-
BasePowerTheory.get_kmu_pairs (base.py lines 703-721): concatenate every
transfer flattened coordinate array and record the contiguous index range
(slice) each transfer occupies.
-/
def kmu_go (start : ℕ) : List Transfer → List (List ℚ) × List (List ℚ) × List (ℕ × ℕ)
  | [] => ([], [], [])
  | t :: ts =>
    let N := t.flatk.length
    let rest := kmu_go (start + N) ts
    (t.flatk :: rest.1, t.flatmu :: rest.2.1, (start, start + N) :: rest.2.2)

def get_kmu_pairs (transfers : List Transfer) : List ℚ × List ℚ × List (ℕ × ℕ) :=
  let acc := kmu_go 0 transfers
  (acc.1.flatten, acc.2.1.flatten, acc.2.2)

/-- Extract the slice P of a flattened vector between the recorded start
and stop positions. -/
def sliceList (P : List ℚ) (sl : ℕ × ℕ) : List ℚ := (P.drop sl.1).take (sl.2 - sl.1)

/-- Model of xr.concat over the last dimension (base.py line 754):
concatenation of the per-transfer results along the secondary basis
dimension. -/
def xr_concat (rs : List TResult) : TResult :=
  { k := (rs.headD { k := [], bins := [] }).k, bins := (rs.map TResult.bins).flatten }

/-
Lines 748-756 of apply_transfers: apply each transfer to its slice of the
raw predictions, then merge.  With no transfer at all, results[0] raises
IndexError in the source.
-/
def mk_result (P : List ℚ) (transfers : List Transfer) (slices : List (ℕ × ℕ)) :
    Except PyErr TResult :=
  let results := (transfers.zip slices).map (fun ts => ts.1.apply (sliceList P ts.2))
  if results.length > 1 then .ok (xr_concat results)
  else
    match results with
    | [r] => .ok r
    | _ => .error .indexError

/-- Model of result.sel along the secondary dimension (base.py line 776);
xarray raises KeyError when the requested coordinate value is absent. -/
def sel (result : TResult) (bb : ℚ) : Option (List (ℚ × Bool)) :=
  (result.bins.find? (fun br => br.1 == bb)).map Prod.snd

def head_kind : List Transfer → Option TransferKind
  | [] => none
  | t :: _ => some t.kind

/-
Lines 776-787: per selected bin, reduce to the data k sampling.  The
branch is chosen by the class of transfers[0]: a window transfer builds a
scipy spline over (r.k, r) and evaluates it at m.k (spl is the external
spline kernel, taking coordinates, values and evaluation points); a
gridded transfer keeps the values whose validity flag is set
(r.values[r.notnull()]); a plain transfer takes the values as they are.
-/
def bin_theory (spl : List ℚ → List ℚ → List ℚ → List ℚ) (m : Meas)
    (transfers : List Transfer) (result : TResult) (bb : ℚ) : Except PyErr (List ℚ) :=
  match sel result bb with
  | none => .error .keyError
  | some r =>
    match head_kind transfers with
    | some .window => .ok (spl result.k (r.map Prod.fst) m.k)
    | some .gridded => .ok ((r.filter (fun vb => vb.2)).map Prod.fst)
    | some .plain => .ok (r.map Prod.fst)
    | none => .error .indexError

/-- The loop over the bin values of one statistic (lines 773-787). -/
def bins_loop (spl : List ℚ → List ℚ → List ℚ → List ℚ) (m : Meas)
    (transfers : List Transfer) (result : TResult) :
    List ℚ → Except PyErr (List (List ℚ))
  | [] => .ok []
  | bb :: rest =>
    match bin_theory spl m transfers result bb with
    | .error e => .error e
    | .ok a =>
      match bins_loop spl m transfers result rest with
      | .error e => .error e
      | .ok more => .ok (a :: more)

/-
The body of the stat_ids loop of apply_transfers (lines 760-804) for one
statistic.  decRegistry models getattr(decorators, name) on the decorators
module: none raises AttributeError.  theory_decorator.get(stat_name, None)
selects the decorator name.  Without a decorator the source asserts that
exactly one intermediate array exists and unwraps it (always an ndarray by
construction, so the line 799 isinstance test passes).  With a decorator,
dec(*theory) may produce any Python value; when it is not an ndarray the
source enters the branch of line 800, whose format expression references
the name stat, which is not defined anywhere in base.py (the loop variable
is stat_name), so Python raises NameError for the name stat before the
intended RuntimeError can be constructed.
-/
def one_stat (spl : List ℚ → List ℚ → List ℚ → List ℚ)
    (decRegistry : String → Option (List (List ℚ) → PyVal))
    (data : PowerData) (transfers : List Transfer) (result : TResult)
    (theory_decorator : List (String × String)) (stat : String × BinVal) :
    Except PyErr (List ℚ) :=
  match data.statistics.findIdx? (fun sn => sn == stat.1) with
  | none => .error (.valueError "x not in list")
  | some idx =>
    match data.measurements[idx]? with
    | none => .error .indexError
    | some m =>
      match bins_loop spl m transfers result stat.2.toList with
      | .error e => .error e
      | .ok theory =>
        match (theory_decorator.find? (fun kv => kv.1 == stat.1)).map Prod.snd with
        | some decName =>
          match decRegistry decName with
          | none => .error .attributeError
          | some dec =>
            match dec theory with
            | .arr a => .ok a
            | .nonArray => .error (.nameError "stat")
        | none =>
          match theory with
          | [a] => .ok a
          | _ => .error .assertionError

/-- The loop over stat_ids in manifest order (lines 760-804). -/
def stats_loop (spl : List ℚ → List ℚ → List ℚ → List ℚ)
    (decRegistry : String → Option (List (List ℚ) → PyVal))
    (data : PowerData) (transfers : List Transfer) (result : TResult)
    (theory_decorator : List (String × String)) :
    List (String × BinVal) → Except PyErr (List (List ℚ))
  | [] => .ok []
  | st :: rest =>
    match one_stat spl decRegistry data transfers result theory_decorator st with
    | .error e => .error e
    | .ok a =>
      match stats_loop spl decRegistry data transfers result theory_decorator rest with
      | .error e => .error e
      | .ok more => .ok (a :: more)

/-
apply_transfers (base.py lines 723-805).  np.concatenate of an empty list
raises ValueError in the source, which the final match mirrors.
-/
def apply_transfers (spl : List ℚ → List ℚ → List ℚ → List ℚ)
    (decRegistry : String → Option (List (List ℚ) → PyVal))
    (P : List ℚ) (data : PowerData) (transfers : List Transfer)
    (stat_ids : List (String × BinVal)) (slices : List (ℕ × ℕ))
    (theory_decorator : List (String × String)) : Except PyErr (List ℚ) :=
  match mk_result P transfers slices with
  | .error e => .error e
  | .ok result =>
    match stats_loop spl decRegistry data transfers result theory_decorator stat_ids with
    | .error e => .error e
    | .ok toret =>
      match toret with
      | [] => .error (.valueError "need at least one array to concatenate")
      | _ => .ok toret.flatten

/-
The model object (external collaborator): a parameter state updated by
model.update plus the grid evaluation model.power, which may depend on the
parameter state.
-/
structure Model where
  pstate : List (String × ℚ)
  powerAt : List (String × ℚ) → List ℚ → List ℚ → List ℚ

def Model.update (m : Model) (mp : List (String × ℚ)) : Model :=
  { m with pstate := setMany m.pstate mp }

def Model.power (m : Model) (k mu : List ℚ) : List ℚ :=
  m.powerAt m.pstate k mu

/-- Instrumented call of model.power: the returned trace records each
invocation with its arguments. -/
def tracked_power (m : Model) (k mu : List ℚ) (tr : List (List ℚ × List ℚ)) :
    List ℚ × List (List ℚ × List ℚ) :=
  (m.power k mu, tr ++ [(k, mu)])

/-
BasePowerTheory.get_model_callable (base.py lines 661-701): the (k, mu)
pairs and slices are assembled once, outside the returned closure; each
call of the closure optionally updates the model parameters, evaluates
model.power on the assembled grid (through tracked_power, so the power
invocations of one call are visible as a trace) and pushes the raw
prediction through apply_transfers.
-/
def get_model_callable (spl : List ℚ → List ℚ → List ℚ → List ℚ)
    (decRegistry : String → Option (List (List ℚ) → PyVal))
    (model : Model) (data : PowerData) (transfers : List Transfer)
    (stat_ids : List (String × BinVal))
    (model_params : Option (List (String × ℚ)))
    (theory_decorator : List (String × String)) :
    Unit → Except PyErr (List ℚ) × List (List ℚ × List ℚ) :=
  let kms := get_kmu_pairs transfers
  fun _ =>
    let m1 := match model_params with
              | some mp => model.update mp
              | none => model
    let pw := tracked_power m1 kms.1 kms.2.1 []
    (apply_transfers spl decRegistry pw.1 data transfers stat_ids kms.2.2 theory_decorator,
     pw.2)

theorem kmu_go_fst (ts : List Transfer) : ∀ start, (kmu_go start ts).1 = ts.map Transfer.flatk := by
  induction ts with
  | nil => intro start; rfl
  | cons t ts ih => intro start; simp [kmu_go, ih]

theorem kmu_go_snd (ts : List Transfer) :
    ∀ start, (kmu_go start ts).2.1 = ts.map Transfer.flatmu := by
  induction ts with
  | nil => intro start; rfl
  | cons t ts ih => intro start; simp [kmu_go, ih]

/-- The assembled grid is the concatenation of all transfer coordinate
arrays, in transfer order. -/
theorem get_kmu_pairs_eq (ts : List Transfer) :
    (get_kmu_pairs ts).1 = (ts.map Transfer.flatk).flatten
    ∧ (get_kmu_pairs ts).2.1 = (ts.map Transfer.flatmu).flatten := by
  constructor
  · simp [get_kmu_pairs, kmu_go_fst]
  · simp [get_kmu_pairs, kmu_go_snd]

/-- Claim C6: each call of the theory-evaluation callable produced by
get_model_callable invokes model.power exactly once, and its arguments are
the single concatenated grid of all transfer flattened coordinate pairs
assembled by get_kmu_pairs: the power-call trace of one call is exactly
one entry holding the concatenation of the flatk arrays and the
concatenation of the flatmu arrays. -/
theorem C6_single_power_call (spl : List ℚ → List ℚ → List ℚ → List ℚ)
    (decRegistry : String → Option (List (List ℚ) → PyVal))
    (model : Model) (data : PowerData) (transfers : List Transfer)
    (stat_ids : List (String × BinVal)) (model_params : Option (List (String × ℚ)))
    (theory_decorator : List (String × String)) (u : Unit) :
    (get_model_callable spl decRegistry model data transfers stat_ids model_params
        theory_decorator u).2 =
      [((transfers.map Transfer.flatk).flatten, (transfers.map Transfer.flatmu).flatten)] := by
  simp [get_model_callable, tracked_power, (get_kmu_pairs_eq transfers).1,
    (get_kmu_pairs_eq transfers).2]

/-- Elementwise characterization of a successful stats_loop run: one entry
per statistic, in order, each produced by one_stat. -/
theorem stats_loop_ok (spl : List ℚ → List ℚ → List ℚ → List ℚ)
    (decRegistry : String → Option (List (List ℚ) → PyVal))
    (data : PowerData) (transfers : List Transfer) (result : TResult)
    (theory_decorator : List (String × String)) :
    ∀ (l : List (String × BinVal)) (arrs : List (List ℚ)),
      stats_loop spl decRegistry data transfers result theory_decorator l = .ok arrs →
      arrs.length = l.length ∧
      ∀ i (h1 : i < l.length) (h2 : i < arrs.length),
        one_stat spl decRegistry data transfers result theory_decorator (l.get ⟨i, h1⟩) =
          .ok (arrs.get ⟨i, h2⟩) := by
  intro l
  induction l with
  | nil =>
    intro arrs h
    simp only [stats_loop, Except.ok.injEq] at h
    subst h
    exact ⟨rfl, fun i h1 => absurd h1 (by simp)⟩
  | cons st rest ih =>
    intro arrs h
    rw [stats_loop] at h
    cases hone : one_stat spl decRegistry data transfers result theory_decorator st with
    | error e => rw [hone] at h; exact absurd h (by simp)
    | ok a =>
      rw [hone] at h
      cases hrest : stats_loop spl decRegistry data transfers result theory_decorator rest with
      | error e => rw [hrest] at h; exact absurd h (by simp)
      | ok more =>
        rw [hrest] at h
        simp only [Except.ok.injEq] at h
        subst h
        obtain ⟨hl, hg⟩ := ih more hrest
        refine ⟨by simp [hl], ?_⟩
        intro i h1 h2
        cases i with
        | zero => simpa using hone
        | succ j => exact hg j (by simpa using h1) (by simpa using h2)

/-- Claim C8: a comparison vector returned by apply_transfers is the
concatenation of the final per-statistic arrays in statistic-manifest
(stat_ids) order: there is a list with exactly one final array per
statistic, the i-th produced by the loop body for the i-th statistic, and
the returned vector is its concatenation.  The statement quantifies over
arbitrary transfers, so the segment order does not depend on the internal
ordering of the transfers. -/
theorem C8_concat_order (spl : List ℚ → List ℚ → List ℚ → List ℚ)
    (decRegistry : String → Option (List (List ℚ) → PyVal))
    (P : List ℚ) (data : PowerData) (transfers : List Transfer)
    (stat_ids : List (String × BinVal)) (slices : List (ℕ × ℕ))
    (theory_decorator : List (String × String)) (v : List ℚ)
    (h : apply_transfers spl decRegistry P data transfers stat_ids slices theory_decorator =
          .ok v) :
    ∃ result arrs,
      mk_result P transfers slices = .ok result ∧
      stats_loop spl decRegistry data transfers result theory_decorator stat_ids = .ok arrs ∧
      arrs.length = stat_ids.length ∧
      (∀ i (h1 : i < stat_ids.length) (h2 : i < arrs.length),
        one_stat spl decRegistry data transfers result theory_decorator
          (stat_ids.get ⟨i, h1⟩) = .ok (arrs.get ⟨i, h2⟩)) ∧
      v = arrs.flatten := by
  rw [apply_transfers] at h
  cases hmk : mk_result P transfers slices with
  | error e => rw [hmk] at h; simp at h
  | ok result =>
    rw [hmk] at h
    dsimp only at h
    cases hsl : stats_loop spl decRegistry data transfers result theory_decorator stat_ids with
    | error e => rw [hsl] at h; simp at h
    | ok toret =>
      rw [hsl] at h
      dsimp only at h
      cases toret with
      | nil => simp at h
      | cons a more =>
        simp only [Except.ok.injEq] at h
        obtain ⟨hl, hg⟩ := stats_loop_ok spl decRegistry data transfers result
          theory_decorator stat_ids (a :: more) hsl
        exact ⟨result, a :: more, rfl, hsl, hl, hg, h.symm⟩

/-- An external spline collaborator for the pipeline witnesses (unused by
the plain-transfer scenario). -/
def splW : List ℚ → List ℚ → List ℚ → List ℚ := fun _ _ pts => pts

/-- An empty decorator registry. -/
def drW : String → Option (List (List ℚ) → PyVal) := fun _ => none

/-- A plain transfer whose result has two bins along the secondary
dimension, with bin values 0 and 2. -/
def tW : Transfer :=
  { flatk := [1, 2, 3, 1, 2, 3], flatmu := [0, 0, 0, 1, 1, 1], kind := .plain,
    apply := fun _ =>
      { k := [1, 2, 3],
        bins := [(0, [(10, true), (11, true), (12, true)]),
                 (2, [(20, true), (21, true), (22, true)])] } }

/-- The data object of the C8 scenario: two statistics, mono then quad. -/
def dataW : PowerData :=
  { mode := "poles", statistics := ["mono", "quad"],
    measurements := [{ k := [1, 2, 3] }, { k := [1, 2, 3] }] }

/-- The statistic manifest of the C8 scenario: mono bound to bin 0, quad
to bin 2. -/
def statsW : List (String × BinVal) := [("mono", .single 0), ("quad", .single 2)]

/-- Witness for claim C8: the spec scenario: two statistics mono (bin 0)
and quad (bin 2) over one plain transfer yield the 3-point mono segment
followed by the 3-point quad segment. -/
theorem C8_witness :
    apply_transfers splW drW [5, 5, 5, 5, 5, 5] dataW [tW] statsW [(0, 6)] [] =
      .ok ([10, 11, 12] ++ [20, 21, 22]) := by
  obtain ⟨result, arrs, hmk, hsl, hlen, hper, hflat⟩ :=
    C8_concat_order splW drW [5, 5, 5, 5, 5, 5] dataW [tW] statsW [(0, 6)] []
      ([10, 11, 12] ++ [20, 21, 22]) rfl
  rfl

/-- A decorator registry holding one decorator that returns a value that
is not a numpy array. -/
def badDecs : String → Option (List (List ℚ) → PyVal) :=
  fun n => if n = "combined" then some (fun _ => PyVal.nonArray) else none

/-- Claim C7 (code bug evaluation): when the final theory value for the
statistic mono is not a numpy array, apply_transfers raises NameError for
the undefined name stat (base.py line 800 formats the message with stat
while the loop variable is stat_name), instead of the intended RuntimeError
carrying the statistic name. -/
theorem C7_nameError_on_nonarray :
    apply_transfers splW badDecs [5, 5, 5, 5, 5, 5] dataW [tW] [("mono", .single 0)]
      [(0, 6)] [("mono", "combined")] = .error (.nameError "stat") := by
  rfl

/-
The optimization driver run (lbfgs_solver.py lines 44-185).

The two except clauses of the source (lines 152-157) catch
KeyboardInterrupt and Exception; an exception raised by the bounded search
is one of these two kinds.
-/
inductive Exc where
  | keyboardInterrupt
  | other (msg : String)
  deriving DecidableEq, Repr

/-- The minimizer.data dictionary of the lbfgs module as the driver reads
and writes it: iteration, funcalls, status and curr_state.X. -/
structure MState where
  iteration : ℕ
  funcalls : ℕ
  status : ℤ
  X : List ℚ
  deriving DecidableEq, Repr

/-
A previous LBFGSResults object used to restart (external results class).
The driver reads the attribute iterations (line 79), the data dictionary
entries iteration and funcalls (lines 126-127) and the per-name final
values init_values[name] (line 130); these are independent accessors of
the external class, modelled as separate fields.
-/
structure ResultsData where
  iterations : ℕ
  data_iteration : ℕ
  data_funcalls : ℕ
  byName : String → ℚ

/-- The init_values argument of run: either a plain vector or a previous
results object. -/
inductive InitVal where
  | vec (x : List ℚ)
  | results (r : ResultsData)

/-- The fit_params object as run reads it: the free parameter objects, the
free names, and the loc/scale vectors used by scale and inverse_scale. -/
structure FitParams where
  free : List Param
  free_names : List String
  locs : List ℚ
  scales : List ℚ

/-
The configuration mapping params as read in lines 51-74: each field is the
params.get call with its source default.  The epsilon, numerical,
numerical_from_lnlike and use_priors entries only shape the objective f
and gradient fprime handed to the external lbfgs module (lines 98-116);
the search itself is abstracted by the run_nlopt collaborator, so these
fields are carried but do not appear in the control flow below.  max_iter
and test_convergence are the recognized entries of lbfgs_options (other
entries are passed through to the search unchanged).
-/
structure SolverConfig where
  init_from : String
  init_scatter : ℚ
  lbfgs_epsilon : ℚ
  lbfgs_numerical : Bool
  lbfgs_numerical_from_lnlike : Bool
  lbfgs_use_priors : Bool
  lbfgs_rescale : Bool
  test_convergence : Bool
  max_iter : Option ℤ

/-- The options mapping passed to minimizer.run_nlopt: the recognized
entries. -/
structure Options where
  max_iter : Option ℤ
  test_convergence : Bool
  deriving DecidableEq, Repr

/-- The results object LBFGSResults(d, fit_params) (line 184) handed back
to the caller, built from the minimizer state and the fit parameters. -/
structure LBFGSResultsObj where
  d : MState
  fit : FitParams

/-- Outcome of the initialization phase (lines 50-66). -/
inductive InitOutcome where
  | diverged
  | raised (e : PyErr)
  | ok (iv : InitVal)

/-
Lines 50-66 of run.  init_from = prior draws from the prior ignoring
init_values; init_from in (fiducial, result) with init_scatter > 0 scatters
around init_values; afterwards a still-missing init_values raises
ValueError.  When scatter is requested but init_values is None or a
results object, the expression scatter*x of InitializeWithScatter is not
defined for the operand (None has no numeric product, and the external
results class is not a numeric array), modelled as a TypeError; no claim
exercises these two inputs.  diverged stands for the rejection loop
spinning forever (its fuel list runs out).
-/
def init_phase (cfg : SolverConfig) (fp : FitParams) (draws noises : List (List ℚ))
    (init_values : Option InitVal) : InitOutcome :=
  if cfg.init_from = "prior" then
    match InitializeFromPrior fp.free draws with
    | some pr => .ok (.vec pr.1)
    | none => .diverged
  else if (cfg.init_from = "fiducial" ∨ cfg.init_from = "result") ∧ cfg.init_scatter > 0 then
    match init_values with
    | some (.vec x) =>
      match InitializeWithScatter fp.free x cfg.init_scatter noises with
      | some pr => .ok (.vec pr.1)
      | none => .diverged
    | some (.results _) => .raised .typeError
    | none => .raised .typeError
  else
    match init_values with
    | some iv => .ok iv
    | none => .raised (.valueError "please specify how to initialize the maximum-likelihood solver")

/-
Lines 76-81: the remaining-iteration count computed for the log message
when max_iter is present and test_convergence is off, reduced by the
iterations attribute of a results object.  The source only logs this
value; it does not write it back into options.
-/
def logged_maxiter (cfg : SolverConfig) (iv : InitVal) : Option ℤ :=
  match cfg.max_iter, cfg.test_convergence with
  | some m, false =>
    match iv with
    | .results r => some (m - (r.iterations : ℤ))
    | .vec _ => some m
  | _, _ => none

/-- Lines 122-127: the restart continuation record taken from a previous
results object. -/
def restart_data (iv : InitVal) : Option (ℕ × ℕ) :=
  match iv with
  | .results r => some (r.data_iteration, r.data_funcalls)
  | .vec _ => none

/-- Lines 129-131: on restart, the start vector is the final value of each
free parameter of the previous result. -/
def start_vector (fp : FitParams) (iv : InitVal) : List ℚ :=
  match iv with
  | .results r => fp.free_names.map r.byName
  | .vec x => x

/-
Lines 122-147: assemble the options and the initial minimizer state.
lbfgs_init abstracts the external constructor LBFGS(f, fprime, x,
unscaler): it produces the fresh minimizer.data for a start vector; the
driver then overwrites iteration and funcalls with the restart record when
one exists (minimizer.data.update(restart_data)).  When rescaling is on,
the start vector is mapped to solver space first (line 136).
-/
def prepare_minimizer (cfg : SolverConfig) (fp : FitParams)
    (lbfgs_init : List ℚ → MState) (iv : InitVal) : Options × MState :=
  let options : Options :=
    { max_iter := cfg.max_iter, test_convergence := cfg.test_convergence }
  let x0 := start_vector fp iv
  let x1 := if cfg.lbfgs_rescale then scale fp.locs fp.scales x0 else x0
  let d0 := lbfgs_init x1
  let d1 := match restart_data iv with
            | some rc => { d0 with iteration := rc.1, funcalls := rc.2 }
            | none => d0
  (options, d1)

/-- Line 169: if rescaling was active, map the solver-space solution back
to physical units before building the results object. -/
def final_state (cfg : SolverConfig) (fp : FitParams) (d : MState) : MState :=
  if cfg.lbfgs_rescale then { d with X := inverse_scale fp.locs fp.scales d.X } else d

/-
Lines 149-185: invoke the bounded search (run_nlopt, external lbfgs
module; it returns the possibly caught exception together with the
minimizer.data state it left behind, partial when it raised), inverse
scale the solution, and build a results object ONLY when no exception
occurred or the sole exception was a KeyboardInterrupt; always return the
(results, exception) pair.
-/
def run_search (cfg : SolverConfig) (fp : FitParams)
    (run_nlopt : Options → MState → Option Exc × MState)
    (opts : Options) (d1 : MState) : Option LBFGSResultsObj × Option Exc :=
  let r := run_nlopt opts d1
  let exc := r.1
  let d3 := final_state cfg fp r.2
  let results : Option LBFGSResultsObj :=
    if exc = none ∨ exc = some .keyboardInterrupt then some { d := d3, fit := fp }
    else none
  (results, exc)

/-- The possible outcomes of a run invocation: the initializer loop never
finishing, an exception escaping run, or the normal (results, exception)
pair. -/
inductive RunOutcome where
  | diverged
  | raised (e : PyErr)
  | returned (results : Option LBFGSResultsObj) (exception : Option Exc)

/-- The driver run (lbfgs_solver.py lines 44-185), composed from the
phases above. -/
def run (cfg : SolverConfig) (fp : FitParams) (draws noises : List (List ℚ))
    (lbfgs_init : List ℚ → MState)
    (run_nlopt : Options → MState → Option Exc × MState)
    (init_values : Option InitVal) : RunOutcome :=
  match init_phase cfg fp draws noises init_values with
  | .diverged => .diverged
  | .raised e => .raised e
  | .ok iv =>
    let od := prepare_minimizer cfg fp lbfgs_init iv
    let re := run_search cfg fp run_nlopt od.1 od.2
    .returned re.1 re.2

/-- Claim C1: for every run invocation whose initialization phase yields an
initial vector: if the bounded search raises nothing, or raises only a
KeyboardInterrupt, the returned pair holds a non-null results object built
from the final minimizer state (inverse scaled when rescaling is on); for
any other exception kind the returned pair is (None, exception) even
though the partially computed state d2 was available. -/
theorem C1_result_vs_exception (cfg : SolverConfig) (fp : FitParams)
    (draws noises : List (List ℚ)) (lbfgs_init : List ℚ → MState)
    (run_nlopt : Options → MState → Option Exc × MState)
    (init_values : Option InitVal) (iv : InitVal) (opts : Options) (d1 : MState)
    (exc : Option Exc) (d2 : MState)
    (hinit : init_phase cfg fp draws noises init_values = .ok iv)
    (hprep : prepare_minimizer cfg fp lbfgs_init iv = (opts, d1))
    (hnl : run_nlopt opts d1 = (exc, d2)) :
    (exc = none →
      run cfg fp draws noises lbfgs_init run_nlopt init_values =
        .returned (some { d := final_state cfg fp d2, fit := fp }) none)
  ∧ (exc = some .keyboardInterrupt →
      run cfg fp draws noises lbfgs_init run_nlopt init_values =
        .returned (some { d := final_state cfg fp d2, fit := fp })
          (some .keyboardInterrupt))
  ∧ (∀ m, exc = some (.other m) →
      run cfg fp draws noises lbfgs_init run_nlopt init_values =
        .returned none (some (.other m))) := by
  refine ⟨?_, ?_, ?_⟩
  · intro h
    subst h
    simp [run, hinit, hprep, run_search, hnl]
  · intro h
    subst h
    simp [run, hinit, hprep, run_search, hnl]
  · intro m h
    subst h
    simp [run, hinit, hprep, run_search, hnl]

/-- A configuration taking the plain init_values vector path: no prior
draw, no scatter, no rescaling. -/
def cfgW : SolverConfig :=
  { init_from := "fiducial", init_scatter := 0, lbfgs_epsilon := 1/10000,
    lbfgs_numerical := false, lbfgs_numerical_from_lnlike := false,
    lbfgs_use_priors := true, lbfgs_rescale := false,
    test_convergence := false, max_iter := some 100 }

/-- One-parameter fit_params for the solver witnesses. -/
def fpW : FitParams :=
  { free := [], free_names := ["a"], locs := [0], scales := [1] }

/-- A concrete LBFGS constructor collaborator. -/
def liW : List ℚ → MState :=
  fun x => { iteration := 0, funcalls := 0, status := 1, X := x }

/-- A search collaborator that runs three iterations and raises nothing. -/
def nlW : Options → MState → Option Exc × MState :=
  fun _ st => (none, { st with iteration := st.iteration + 3 })

/-- Witness for claim C1: a clean search returns a non-null results object
and a null exception. -/
theorem C1_witness :
    run cfgW fpW [] [] liW nlW (some (.vec [2])) =
      .returned
        (some { d := { iteration := 3, funcalls := 0, status := 1, X := [2] }, fit := fpW })
        none :=
  (C1_result_vs_exception cfgW fpW [] [] liW nlW (some (.vec [2])) (.vec [2])
    { max_iter := some 100, test_convergence := false }
    { iteration := 0, funcalls := 0, status := 1, X := [2] } none
    { iteration := 3, funcalls := 0, status := 1, X := [2] }
    rfl rfl rfl).1 rfl

/-- Claim C2 counterexample: when no initialization strategy yields an
initial vector (init_values is None, init_from is fiducial, no scatter),
run raises ValueError past its own boundary instead of returning a
(results, exception) pair. -/
theorem C2_counterexample :
    run cfgW fpW [] [] liW nlW none =
      .raised (.valueError "please specify how to initialize the maximum-likelihood solver") := by
  rfl

/-- Claim C2 (amended): whenever the initialization phase yields an
initial vector, run returns a (results, exception) pair and propagates no
exception; when no strategy yields one, the source raises ValueError (see
the counterexample). -/
theorem C2_amended_returns_pair (cfg : SolverConfig) (fp : FitParams)
    (draws noises : List (List ℚ)) (lbfgs_init : List ℚ → MState)
    (run_nlopt : Options → MState → Option Exc × MState)
    (init_values : Option InitVal) (iv : InitVal)
    (hinit : init_phase cfg fp draws noises init_values = .ok iv) :
    ∃ res exc, run cfg fp draws noises lbfgs_init run_nlopt init_values =
      .returned res exc := by
  simp only [run, hinit]
  exact ⟨_, _, rfl⟩

/-- Witness for the amended claim C2. -/
theorem C2_witness :
    ∃ res exc, run cfgW fpW [] [] liW nlW (some (.vec [2])) = .returned res exc :=
  C2_amended_returns_pair cfgW fpW [] [] liW nlW (some (.vec [2])) (.vec [2]) rfl

/-- Claim C9 (amended): on restart the iteration and funcalls counters of
the previous result are installed in the minimizer state handed to the
bounded search, and the logged remaining-iteration count is max_iter minus
the carried iteration count (when max_iter is present and probe-convergence
mode is off); the options mapping itself reaches the search with max_iter
unchanged, and run hands the search exactly the prepared options and
state. -/
theorem C9_restart_continuation (cfg : SolverConfig) (fp : FitParams)
    (lbfgs_init : List ℚ → MState) (r : ResultsData) :
    ((prepare_minimizer cfg fp lbfgs_init (.results r)).2.iteration = r.data_iteration)
  ∧ ((prepare_minimizer cfg fp lbfgs_init (.results r)).2.funcalls = r.data_funcalls)
  ∧ ((prepare_minimizer cfg fp lbfgs_init (.results r)).1.max_iter = cfg.max_iter)
  ∧ ((prepare_minimizer cfg fp lbfgs_init (.results r)).1.test_convergence =
      cfg.test_convergence)
  ∧ (∀ m, cfg.max_iter = some m → cfg.test_convergence = false →
      logged_maxiter cfg (.results r) = some (m - (r.iterations : ℤ)))
  ∧ (∀ (draws noises : List (List ℚ))
       (run_nlopt : Options → MState → Option Exc × MState),
       cfg.init_from = "result" → ¬ cfg.init_scatter > 0 →
       run cfg fp draws noises lbfgs_init run_nlopt (some (.results r)) =
         .returned
           (run_search cfg fp run_nlopt
             (prepare_minimizer cfg fp lbfgs_init (.results r)).1
             (prepare_minimizer cfg fp lbfgs_init (.results r)).2).1
           (run_search cfg fp run_nlopt
             (prepare_minimizer cfg fp lbfgs_init (.results r)).1
             (prepare_minimizer cfg fp lbfgs_init (.results r)).2).2) := by
  refine ⟨rfl, rfl, rfl, rfl, ?_, ?_⟩
  · intro m hm hc
    simp [logged_maxiter, hm, hc]
  · intro draws noises run_nlopt hfrom hsc
    have hinit : init_phase cfg fp draws noises (some (.results r)) = .ok (.results r) := by
      simp [init_phase, hfrom, hsc]
    simp [run, hinit]

/-- The restart configuration of the C9 counterexample: max_iter 100,
probe-convergence off. -/
def cfg9 : SolverConfig :=
  { init_from := "result", init_scatter := 0, lbfgs_epsilon := 1/10000,
    lbfgs_numerical := false, lbfgs_numerical_from_lnlike := false,
    lbfgs_use_priors := true, lbfgs_rescale := false,
    test_convergence := false, max_iter := some 100 }

/-- A previous result having consumed 40 iterations and 77 function
calls. -/
def r9 : ResultsData :=
  { iterations := 40, data_iteration := 40, data_funcalls := 77, byName := fun _ => 0 }

/-- A search collaborator that records the max_iter option it received in
the status field of the state it returns. -/
def probe_nlopt : Options → MState → Option Exc × MState :=
  fun opts st => (none, { st with status := opts.max_iter.getD (-1) })

/-- Claim C9 counterexample: restarting from a result with 40 iterations
and max_iter 100, the bounded search receives max_iter 100, not the
downward-adjusted 100 - 40 = 60: the recording collaborator observes 100
in the returned status, while the carried iteration counter 40 and
funcalls 77 are installed in the state. -/
theorem C9_counterexample :
    run cfg9 fpW [] [] liW probe_nlopt (some (.results r9)) =
      .returned
        (some { d := { iteration := 40, funcalls := 77, status := 100, X := [0] },
                fit := fpW })
        none
    ∧ logged_maxiter cfg9 (.results r9) = some 60
    ∧ (100 : ℤ) ≠ 100 - 40 := by
  refine ⟨rfl, rfl, by decide⟩

/-- Witness for the amended claim C9. -/
theorem C9_witness :
    (prepare_minimizer cfg9 fpW liW (.results r9)).2.iteration = 40
    ∧ (prepare_minimizer cfg9 fpW liW (.results r9)).1.max_iter = some 100
    ∧ logged_maxiter cfg9 (.results r9) = some 60 := by
  obtain ⟨h1, h2, h3, h4, h5, h6⟩ := C9_restart_continuation cfg9 fpW liW r9
  refine ⟨h1, h3, ?_⟩
  have := h5 100 rfl rfl
  simpa using this

end PyrsdFit
